import Mathlib

/-!
Shallow embedding of the sync core of the mipa-tab repository
(collection storage, canonicalization, Gist merge/sync, URL duplicate
detection), with theorems settling the spec's claims about it.

JavaScript `undefined` is modelled as `Option.none`; JS string
truthiness (`""` and `undefined` are falsy) is `truthyO`; object-key
insertion semantics of JS `Map` are modelled by `mapInsert` on
association lists.  Impure primitives of the source
(`new Date().toISOString()`, `Date.now()`, the `Math.random`-based
fresh tab-id generator, `JSON.parse`, `fetch` responses, `Date`
parsing inside the comparator of `sort`) are passed in as explicit
parameters, so that every function below is a pure function of its
inputs exactly where the source is, and its impurity is visible as a
parameter exactly where the source consults the outside world.
-/

namespace Mipa

/-- JS truthiness of a possibly-absent string: `undefined` and `""` are falsy. -/
def truthyO : Option String → Bool
  | none => false
  | some s => s ≠ ""

/-- JS `a || b` on possibly-absent strings. -/
def jsOr (a b : Option String) : Option String :=
  if truthyO a then a else b

/-- JS `a || d` where the fallback `d` is a present string. -/
def jsOrD (a : Option String) (d : String) : String :=
  match a with
  | none => d
  | some s => if s = "" then d else s

/-- In-memory tab as handled by `StorageService.prepareCollectionsForSaving`:
every field may be `undefined`. -/
structure TabIn where
  id : Option String
  title : Option String
  url : Option String
  description : Option String
deriving DecidableEq, Repr

/-- In-memory collection as handled by `prepareCollectionsForSaving`. -/
structure ColIn where
  id : Option String
  name : Option String
  title : Option String
  color : Option String
  createdAt : Option String
  tabs : Option (List TabIn)
deriving DecidableEq, Repr

/-- Canonicalized tab: `{id, title, url, description?}` as produced by
`prepareCollectionsForSaving` (the `description` key is conditional). -/
structure TabOut where
  id : String
  title : String
  url : String
  description : Option String
deriving DecidableEq, Repr

/-- Canonicalized collection: `{id, name, color, createdAt, tabs}` in that
key order; `id`, `name`, `color` are copied as-is and may be `undefined`. -/
structure ColOut where
  id : Option String
  name : Option String
  color : Option String
  createdAt : String
  tabs : List TabOut
deriving DecidableEq, Repr

/-- One tab of `prepareCollectionsForSaving`
(src/src/js/services/StorageService.js lines 31-42).  `fresh k` models the
`k`-th string drawn from `` `tab-${Date.now()}-${Math.random()...}` ``
during this call; the returned counter records how many were drawn. -/
def prepTab (fresh : Nat → String) (t : TabIn) (k : Nat) : TabOut × Nat :=
  let idk : String × Nat :=
    match t.id with
    | none => (fresh k, k + 1)
    | some s => if s = "" then (fresh k, k + 1) else (s, k)
  ({ id := idk.1
     title := jsOrD t.title "Untitled"
     url := jsOrD t.url ""
     description :=
       match t.description with
       | none => none
       | some d => if d ≠ "" ∧ t.title ≠ some d then some d else none },
   idk.2)

/-- `collection.tabs.map(...)` of `prepareCollectionsForSaving`, threading
the fresh-id counter left to right. -/
def prepTabs (fresh : Nat → String) : List TabIn → Nat → List TabOut × Nat
  | [], k => ([], k)
  | t :: ts, k =>
    ((prepTab fresh t k).1 :: (prepTabs fresh ts (prepTab fresh t k).2).1,
     (prepTabs fresh ts (prepTab fresh t k).2).2)

/-- One collection of `prepareCollectionsForSaving`: `now` models the
`new Date().toISOString()` taken once per call. -/
def prepCol (now : String) (fresh : Nat → String) (c : ColIn) (k : Nat) :
    ColOut × Nat :=
  ({ id := c.id
     name := jsOr c.name c.title
     color := c.color
     createdAt := jsOrD c.createdAt now
     tabs := (prepTabs fresh (c.tabs.getD []) k).1 },
   (prepTabs fresh (c.tabs.getD []) k).2)

def prepCols (now : String) (fresh : Nat → String) :
    List ColIn → Nat → List ColOut × Nat
  | [], k => ([], k)
  | c :: cs, k =>
    ((prepCol now fresh c k).1 ::
       (prepCols now fresh cs (prepCol now fresh c k).2).1,
     (prepCols now fresh cs (prepCol now fresh c k).2).2)

/-- `StorageService.prepareCollectionsForSaving(collections)` — the
canonicalizer.  `now` is the ISO timestamp taken at entry, `fresh` the
stream of generated tab ids. -/
def prepare (now : String) (fresh : Nat → String) (cs : List ColIn) :
    List ColOut :=
  (prepCols now fresh cs 0).1

/-- Re-read a canonicalized tab as a plain JS object (what happens when the
output of `prepareCollectionsForSaving` is fed back into it). -/
def tabOutToIn (t : TabOut) : TabIn :=
  { id := some t.id, title := some t.title, url := some t.url
    description := t.description }

/-- Re-read a canonicalized collection as a plain JS object: the output has
no `title` key. -/
def colOutToIn (c : ColOut) : ColIn :=
  { id := c.id, name := c.name, title := none, color := c.color
    createdAt := some c.createdAt, tabs := some (c.tabs.map tabOutToIn) }

/-! ## Serialization: `MipaUtils.deterministicStringify`

`deterministicStringify(obj)` is `JSON.stringify(obj, null, 2)`
(src/src/js/utils.js lines 72-74): two-space-indented JSON, object keys
in insertion order, `undefined`-valued keys dropped.  We render exactly
the shapes produced by `prepareCollectionsForSaving`. -/

/-- JSON string-character escaping as performed by `JSON.stringify`. -/
def escapeJsonChar (c : Char) : String :=
  if c = '"' then "\\\""
  else if c = '\\' then "\\\\"
  else if c = '\n' then "\\n"
  else if c = '\r' then "\\r"
  else if c = '\t' then "\\t"
  else if c.toNat = 8 then "\\b"
  else if c.toNat = 12 then "\\f"
  else if c.toNat < 32 then
    let hex : Nat → Char := fun n =>
      if n < 10 then Char.ofNat (48 + n) else Char.ofNat (87 + n)
    "\\u00" ++ String.mk [hex (c.toNat / 16), hex (c.toNat % 16)]
  else String.mk [c]

/-- A JSON string literal. -/
def jstr (s : String) : String :=
  "\"" ++ String.join (s.data.map escapeJsonChar) ++ "\""

/-- `n` spaces of indentation. -/
def sp (n : Nat) : String :=
  String.mk (List.replicate n ' ')

/-- A JSON object at nesting level `lvl`, fields already rendered. -/
def objJson (lvl : Nat) (fs : List (String × String)) : String :=
  match fs with
  | [] => "\x7b\x7d"
  | _ =>
    "\x7b\n" ++
      String.intercalate ",\n"
        (fs.map (fun f => sp (2 * (lvl + 1)) ++ jstr f.1 ++ ": " ++ f.2)) ++
      "\n" ++ sp (2 * lvl) ++ "\x7d"

/-- A JSON array at nesting level `lvl`, items already rendered. -/
def arrJson (lvl : Nat) (items : List String) : String :=
  match items with
  | [] => "[]"
  | _ =>
    "[\n" ++
      String.intercalate ",\n" (items.map (fun i => sp (2 * (lvl + 1)) ++ i)) ++
      "\n" ++ sp (2 * lvl) ++ "]"

/-- A canonicalized tab as JSON (keys `id`, `title`, `url`, then
`description` only when present). -/
def tabJson (lvl : Nat) (t : TabOut) : String :=
  objJson lvl
    ([("id", jstr t.id), ("title", jstr t.title), ("url", jstr t.url)] ++
     (match t.description with
      | none => []
      | some d => [("description", jstr d)]))

/-- A canonicalized collection as JSON; `undefined`-valued keys
(`id`/`name`/`color` when absent) are dropped by `JSON.stringify`. -/
def colJson (lvl : Nat) (c : ColOut) : String :=
  objJson lvl
    ((match c.id with | none => [] | some v => [("id", jstr v)]) ++
     (match c.name with | none => [] | some v => [("name", jstr v)]) ++
     (match c.color with | none => [] | some v => [("color", jstr v)]) ++
     [("createdAt", jstr c.createdAt),
      ("tabs", arrJson (lvl + 1) (c.tabs.map (tabJson (lvl + 2))))])

/-- `MipaUtils.deterministicStringify` applied to a canonicalized
collection list, i.e. `JSON.stringify(cols, null, 2)`. -/
def stringifyCols (cs : List ColOut) : String :=
  arrJson 0 (cs.map (colJson 1))

/-- The canonical serialized form of an in-memory collection list:
`deterministicStringify(prepareCollectionsForSaving(cs))`. -/
def canonicalString (now : String) (fresh : Nat → String) (cs : List ColIn) :
    String :=
  stringifyCols (prepare now fresh cs)

/-! ## Raw JS objects and their field-insertion order

To state that canonicalization does not depend on object key insertion
order, we model a raw JS object as an ordered association list of
string fields; `jsGet` is property lookup (first binding wins, absent
key is `undefined`). -/

/-- JS property lookup on an ordered field list. -/
def jsGet (fs : List (String × String)) (k : String) : Option String :=
  (fs.find? (fun p => p.1 = k)).map (fun p => p.2)

/-- A raw tab object: ordered string fields. -/
structure RawTab where
  fields : List (String × String)
deriving DecidableEq, Repr

/-- A raw collection object: ordered string fields plus the (array-valued)
`tabs` field, `none` when the object lacks a `tabs` key. -/
structure RawCol where
  fields : List (String × String)
  tabs : Option (List RawTab)
deriving DecidableEq, Repr

/-- Reading the fields `prepareCollectionsForSaving` consumes from a raw
tab object. -/
def readTab (t : RawTab) : TabIn :=
  { id := jsGet t.fields "id", title := jsGet t.fields "title"
    url := jsGet t.fields "url", description := jsGet t.fields "description" }

/-- Reading the fields `prepareCollectionsForSaving` consumes from a raw
collection object (`collection.tabs || []` already applied). -/
def readCol (c : RawCol) : ColIn :=
  { id := jsGet c.fields "id", name := jsGet c.fields "name"
    title := jsGet c.fields "title", color := jsGet c.fields "color"
    createdAt := jsGet c.fields "createdAt"
    tabs := some ((c.tabs.getD []).map readTab) }

/-- Two raw tabs with the same logical content: every property lookup
agrees, whatever the key insertion order. -/
def SameTab (t₁ t₂ : RawTab) : Prop :=
  ∀ k, jsGet t₁.fields k = jsGet t₂.fields k

/-- Two raw collections with the same logical content: every property
lookup agrees and the tab lists agree pointwise (a missing `tabs` key and
an empty `tabs` array are both read as `[]` by the source). -/
def SameCol (c₁ c₂ : RawCol) : Prop :=
  (∀ k, jsGet c₁.fields k = jsGet c₂.fields k) ∧
  List.Forall₂ SameTab (c₁.tabs.getD []) (c₂.tabs.getD [])

/-! ## Canonicalizer lemmas -/

theorem jsOrD_ne_empty {a : Option String} {d : String} (hd : d ≠ "") :
    jsOrD a d ≠ "" := by
  cases a with
  | none => simpa [jsOrD] using hd
  | some s =>
    by_cases hs : s = "" <;> simp [jsOrD, hs, hd]

theorem readTab_eq_of_same {t₁ t₂ : RawTab} (h : SameTab t₁ t₂) :
    readTab t₁ = readTab t₂ := by
  have h' : ∀ k, jsGet t₁.fields k = jsGet t₂.fields k := h
  simp only [readTab, h']

theorem readTabs_eq_of_same {l₁ l₂ : List RawTab}
    (h : List.Forall₂ SameTab l₁ l₂) : l₁.map readTab = l₂.map readTab := by
  induction h with
  | nil => rfl
  | cons hh _ ih => simp [readTab_eq_of_same hh, ih]

theorem readCol_eq_of_same {c₁ c₂ : RawCol} (h : SameCol c₁ c₂) :
    readCol c₁ = readCol c₂ := by
  have h' : ∀ k, jsGet c₁.fields k = jsGet c₂.fields k := h.1
  simp only [readCol, h', readTabs_eq_of_same h.2]

theorem readCols_eq_of_same {X₁ X₂ : List RawCol}
    (h : List.Forall₂ SameCol X₁ X₂) : X₁.map readCol = X₂.map readCol := by
  induction h with
  | nil => rfl
  | cons hh _ ih => simp [readCol_eq_of_same hh, ih]

/-- When the tab already has a truthy `id`, `prepTab` neither consults the
fresh-id stream nor advances its counter, and its output does not depend
on them. -/
theorem prepTab_of_truthy_id {t : TabIn} (h : truthyO t.id = true)
    (f₁ f₂ : Nat → String) (k₁ k₂ : Nat) :
    (prepTab f₁ t k₁).1 = (prepTab f₂ t k₂).1 ∧ (prepTab f₁ t k₁).2 = k₁ := by
  cases ht : t.id with
  | none => simp [truthyO, ht] at h
  | some s =>
    have hs : s ≠ "" := by simpa [truthyO, ht] using h
    simp [prepTab, ht, hs]

theorem prepTabs_indep {ts : List TabIn}
    (h : ∀ t ∈ ts, truthyO t.id = true) (f₁ f₂ : Nat → String) (k₁ k₂ : Nat) :
    (prepTabs f₁ ts k₁).1 = (prepTabs f₂ ts k₂).1 ∧
      (prepTabs f₁ ts k₁).2 = k₁ := by
  induction ts generalizing k₁ k₂ with
  | nil => simp [prepTabs]
  | cons t ts ih =>
    have ht := prepTab_of_truthy_id (h t (by simp)) f₁ f₂ k₁ k₂
    have htail := ih (fun x hx => h x (List.mem_cons_of_mem _ hx))
      (prepTab f₁ t k₁).2 (prepTab f₂ t k₂).2
    refine ⟨?_, ?_⟩
    · simp only [prepTabs]
      rw [ht.1, htail.1]
    · simp only [prepTabs]
      rw [htail.2, ht.2]

/-- When every collection has a truthy `createdAt` and every tab a truthy
`id`, the canonicalizer's output does not depend on the sampled `now`
timestamp or the fresh-id stream. -/
theorem prepCols_indep {cs : List ColIn}
    (h : ∀ c ∈ cs, truthyO c.createdAt = true ∧
      ∀ t ∈ c.tabs.getD [], truthyO t.id = true)
    (n₁ n₂ : String) (f₁ f₂ : Nat → String) (k₁ k₂ : Nat) :
    (prepCols n₁ f₁ cs k₁).1 = (prepCols n₂ f₂ cs k₂).1 ∧
      (prepCols n₁ f₁ cs k₁).2 = k₁ := by
  induction cs generalizing k₁ k₂ with
  | nil => simp [prepCols]
  | cons c cs ih =>
    obtain ⟨hca, hts⟩ := h c (by simp)
    have hcreated : jsOrD c.createdAt n₁ = jsOrD c.createdAt n₂ := by
      cases hc : c.createdAt with
      | none => simp [truthyO, hc] at hca
      | some s =>
        have hs : s ≠ "" := by simpa [truthyO, hc] using hca
        simp [jsOrD, hs]
    have htabs := prepTabs_indep hts f₁ f₂ k₁ k₂
    have htail := ih (fun x hx => h x (List.mem_cons_of_mem _ hx))
      (prepCol n₁ f₁ c k₁).2 (prepCol n₂ f₂ c k₂).2
    have hhead : (prepCol n₁ f₁ c k₁).1 = (prepCol n₂ f₂ c k₂).1 := by
      simp only [prepCol, htabs.1, hcreated]
    have hhead2 : (prepCol n₁ f₁ c k₁).2 = k₁ := by
      simp only [prepCol]
      exact htabs.2
    refine ⟨?_, ?_⟩
    · simp only [prepCols]
      rw [hhead, htail.1]
    · simp only [prepCols]
      rw [htail.2, hhead2]

/-! ## Second application of the canonicalizer (for idempotence) -/

/-- A canonicalized tab passes through a second canonicalization unchanged
(and without consuming a fresh id) provided its id and title are non-empty
and its description, when present, is non-empty and differs from its
title. -/
theorem prepTab_second {t : TabOut} (hid : t.id ≠ "") (hti : t.title ≠ "")
    (hd : ∀ d, t.description = some d → d ≠ "" ∧ t.title ≠ d)
    (f : Nat → String) (k : Nat) :
    prepTab f (tabOutToIn t) k = (t, k) := by
  obtain ⟨i, ti, u, d⟩ := t
  simp only at hid hti
  have hu : jsOrD (some u) "" = u := by
    by_cases h : u = "" <;> simp [jsOrD, h]
  cases d with
  | none =>
    simp [prepTab, tabOutToIn, hid, jsOrD, hti, hu]
    exact fun h => h.symm
  | some dv =>
    obtain ⟨h1, h2⟩ := hd dv rfl
    simp only at h2
    have h2' : (some ti : Option String) ≠ some dv := by
      simpa using h2
    simp [prepTab, tabOutToIn, hid, jsOrD, hti, hu, h1, h2']
    exact fun h => h.symm

/-- The invariants `prepTab_second` needs hold of every `prepTab` output,
given a non-empty fresh-id stream and a tab whose description is not the
`"Untitled"` default of an absent title. -/
theorem prepTab_inv {t : TabIn} {f : Nat → String} (hf : ∀ k, f k ≠ "")
    (hu : truthyO t.title = true ∨ t.description ≠ some "Untitled")
    (k : Nat) :
    (prepTab f t k).1.id ≠ "" ∧ (prepTab f t k).1.title ≠ "" ∧
      ∀ d, (prepTab f t k).1.description = some d →
        d ≠ "" ∧ (prepTab f t k).1.title ≠ d := by
  have htitleproj : (prepTab f t k).1.title = jsOrD t.title "Untitled" := rfl
  refine ⟨?_, ?_, ?_⟩
  · cases ht : t.id with
    | none => simpa [prepTab, ht] using hf k
    | some s =>
      by_cases hs : s = "" <;> simp [prepTab, ht, hs, hf k]
  · rw [htitleproj]
    exact jsOrD_ne_empty (by decide)
  · intro d hdesc
    cases hde : t.description with
    | none => simp [prepTab, hde] at hdesc
    | some dv =>
      have hdproj : (prepTab f t k).1.description =
          if dv ≠ "" ∧ t.title ≠ some dv then some dv else none := by
        simp [prepTab, hde]
      by_cases hcond : dv ≠ "" ∧ t.title ≠ some dv
      · rw [hdproj, if_pos hcond, Option.some.injEq] at hdesc
        subst hdesc
        refine ⟨hcond.1, ?_⟩
        rw [htitleproj]
        cases htt : t.title with
        | some s =>
          by_cases hs : s = ""
          · have hdvU : dv ≠ "Untitled" := by
              rcases hu with hu | hu
              · rw [htt, hs] at hu
                simp [truthyO] at hu
              · rw [hde] at hu
                simpa using hu
            subst hs
            simp only [jsOrD, if_pos rfl]
            exact fun h => hdvU h.symm
          · simp only [jsOrD, if_neg hs]
            intro hc
            exact hcond.2 (by rw [htt, hc])
        | none =>
          have hdvU : dv ≠ "Untitled" := by
            rcases hu with hu | hu
            · rw [htt] at hu
              simp [truthyO] at hu
            · rw [hde] at hu
              simpa using hu
          simp only [jsOrD]
          exact fun h => hdvU h.symm
      · rw [hdproj, if_neg hcond] at hdesc
        cases hdesc

/-- Members of a `prepTabs` output are `prepTab` outputs of input members. -/
theorem prepTabs_mem {f : Nat → String} {ts : List TabIn} {k : Nat}
    {t' : TabOut} (h : t' ∈ (prepTabs f ts k).1) :
    ∃ t k', t ∈ ts ∧ t' = (prepTab f t k').1 := by
  induction ts generalizing k with
  | nil => simp [prepTabs] at h
  | cons t ts ih =>
    simp only [prepTabs, List.mem_cons] at h
    rcases h with h | h
    · exact ⟨t, k, by simp, h⟩
    · obtain ⟨t₀, k₀, hmem, heq⟩ := ih h
      exact ⟨t₀, k₀, by simp [hmem], heq⟩

/-- A list of canonicalized tabs passes through a second canonicalization
unchanged when each member satisfies the `prepTab_second` invariants. -/
theorem prepTabs_second {ts : List TabOut}
    (h : ∀ t ∈ ts, t.id ≠ "" ∧ t.title ≠ "" ∧
      ∀ d, t.description = some d → d ≠ "" ∧ t.title ≠ d)
    (f : Nat → String) (k : Nat) :
    prepTabs f (ts.map tabOutToIn) k = (ts, k) := by
  induction ts generalizing k with
  | nil => simp [prepTabs]
  | cons t ts ih =>
    obtain ⟨h1, h2, h3⟩ := h t (by simp)
    have hh := prepTab_second h1 h2 h3 f k
    simp only [List.map_cons, prepTabs, hh]
    rw [ih (fun x hx => h x (List.mem_cons_of_mem _ hx)) k]

/-- A canonicalized collection passes through a second canonicalization
unchanged (whatever `now` and fresh-id stream the second pass draws)
provided its `name` is not the empty string, its `createdAt` is
non-empty, and its tabs satisfy the tab invariants. -/
theorem prepCol_second {c : ColOut} (hname : c.name ≠ some "")
    (hcreated : c.createdAt ≠ "")
    (htabs : ∀ t ∈ c.tabs, t.id ≠ "" ∧ t.title ≠ "" ∧
      ∀ d, t.description = some d → d ≠ "" ∧ t.title ≠ d)
    (now : String) (f : Nat → String) (k : Nat) :
    prepCol now f (colOutToIn c) k = (c, k) := by
  have hn : jsOr c.name none = c.name := by
    cases hc : c.name with
    | none => simp [jsOr, truthyO]
    | some s =>
      have hs : s ≠ "" := fun h => hname (by rw [hc, h])
      simp [jsOr, truthyO, hs]
  have hcr : jsOrD (some c.createdAt) now = c.createdAt := by
    simp [jsOrD, hcreated]
  have ht := prepTabs_second htabs f k
  simp only [prepCol, colOutToIn, Option.getD_some, ht, hn, hcr]

/-- First-pass invariants of `prepCol`'s output. -/
theorem prepCol_inv {c : ColIn} {now : String} {f : Nat → String}
    (hn : now ≠ "") (hf : ∀ k, f k ≠ "")
    (hname : ¬(truthyO c.name = false ∧ c.title = some ""))
    (htabs : ∀ t ∈ c.tabs.getD [],
      truthyO t.title = true ∨ t.description ≠ some "Untitled")
    (k : Nat) :
    (prepCol now f c k).1.name ≠ some "" ∧
      (prepCol now f c k).1.createdAt ≠ "" ∧
      ∀ t ∈ (prepCol now f c k).1.tabs, t.id ≠ "" ∧ t.title ≠ "" ∧
        ∀ d, t.description = some d → d ≠ "" ∧ t.title ≠ d := by
  refine ⟨?_, ?_, ?_⟩
  · show jsOr c.name c.title ≠ some ""
    by_cases hcn : truthyO c.name = true
    · cases hc : c.name with
      | none => simp [truthyO, hc] at hcn
      | some s =>
        have hs : s ≠ "" := by simpa [truthyO, hc] using hcn
        simp [jsOr, truthyO, hc, hs]
    · have hcn' : truthyO c.name = false := by simpa using hcn
      have hti : c.title ≠ some "" := fun h => hname ⟨hcn', h⟩
      simp [jsOr, hcn']
      exact hti
  · show jsOrD c.createdAt now ≠ ""
    exact jsOrD_ne_empty hn
  · intro t ht
    show t.id ≠ "" ∧ t.title ≠ "" ∧ _
    obtain ⟨t₀, k₀, hmem, heq⟩ := prepTabs_mem ht
    subst heq
    exact prepTab_inv hf (htabs t₀ hmem) k₀

/-- A canonicalized collection list passes through a second
canonicalization unchanged, with the second pass's counter untouched. -/
theorem prepCols_second_of_first {X : List ColIn} {now₁ : String}
    {fresh₁ : Nat → String} (hn : now₁ ≠ "") (hf : ∀ k, fresh₁ k ≠ "")
    (hnames : ∀ c ∈ X, ¬(truthyO c.name = false ∧ c.title = some ""))
    (htabs : ∀ c ∈ X, ∀ t ∈ c.tabs.getD [],
      truthyO t.title = true ∨ t.description ≠ some "Untitled")
    (now₂ : String) (fresh₂ : Nat → String) (k k₂ : Nat) :
    prepCols now₂ fresh₂ ((prepCols now₁ fresh₁ X k).1.map colOutToIn) k₂ =
      ((prepCols now₁ fresh₁ X k).1, k₂) := by
  induction X generalizing k k₂ with
  | nil => simp [prepCols]
  | cons c cs ih =>
    obtain ⟨i1, i2, i3⟩ := prepCol_inv hn hf (hnames c (by simp))
      (htabs c (by simp)) k
    have hsec := prepCol_second i1 i2 i3 now₂ fresh₂ k₂
    have itail := ih (fun x hx => hnames x (List.mem_cons_of_mem _ hx))
      (fun x hx => htabs x (List.mem_cons_of_mem _ hx))
      (prepCol now₁ fresh₁ c k).2 k₂
    simp only [prepCols, List.map_cons, hsec, itail]

/-! ## C6 -/

/-- C6: after canonicalization, a tab's `description` key is present iff
the input description is non-empty and differs from the input title, and
the retained value is the input description unchanged.  (A tab whose
description equals its title loses the key; a distinct non-empty
description is kept.) -/
theorem C6_description_elision (t : TabIn) (f : Nat → String) (k : Nat) :
    ((∃ d, (prepTab f t k).1.description = some d) ↔
      (∃ d, t.description = some d ∧ d ≠ "" ∧ t.title ≠ some d)) ∧
    (∀ d, (prepTab f t k).1.description = some d → t.description = some d) := by
  cases hde : t.description with
  | none =>
    have hdproj : (prepTab f t k).1.description = none := by
      simp [prepTab, hde]
    simp [hdproj, hde]
  | some dv =>
    have hdproj : (prepTab f t k).1.description =
        if dv ≠ "" ∧ t.title ≠ some dv then some dv else none := by
      simp [prepTab, hde]
    by_cases hcond : dv ≠ "" ∧ t.title ≠ some dv
    · rw [hdproj, if_pos hcond]
      constructor
      · constructor
        · intro _
          exact ⟨dv, rfl, hcond.1, hcond.2⟩
        · intro _
          exact ⟨dv, rfl⟩
      · intro d hd
        rw [Option.some.injEq] at hd
        rw [hd]
    · rw [hdproj, if_neg hcond]
      constructor
      · constructor
        · rintro ⟨d, hd⟩
          cases hd
        · rintro ⟨d, hd1, hd2, hd3⟩
          rw [Option.some.injEq] at hd1
          subst hd1
          exact absurd ⟨hd2, hd3⟩ hcond
      · intro d hd
        cases hd

/-- Witness for C6 at a concrete tab whose description survives. -/
theorem C6_witness :
    (Mipa.prepTab (fun _ => "g") ⟨some "t1", some "Title", some "u", some "About"⟩
        0).1.description = some "About" ∧
    ((⟨some "t1", some "Title", some "u", some "About"⟩ : TabIn).description
        = some "About") :=
  ⟨by decide,
   (C6_description_elision ⟨some "t1", some "Title", some "u", some "About"⟩
      (fun _ => "g") 0).2 "About" (by decide)⟩

/-! ## C5 -/

/-- C5 counterexample: the canonical serialization is not a deterministic
function of the logical content alone.  For a tab with no `id`, the
source line `` tab.id || `tab-${Date.now()}-${Math.random()...}` ``
synthesizes a fresh random identifier, so two computations of the
canonical form of the *same* in-memory list (here: with the two
different id strings the generator yields at two instants) produce
different output bytes. -/
theorem C5_counterexample :
    canonicalString "2024-01-01T00:00:00.000Z" (fun _ => "tab-100-aaaaaaaaa")
        [⟨some "c1", some "N", none, some "red", some "2024-01-01",
          some [⟨none, some "T", some "https://e.com", none⟩]⟩] ≠
      canonicalString "2024-01-01T00:00:00.000Z" (fun _ => "tab-200-bbbbbbbbb")
        [⟨some "c1", some "N", none, some "red", some "2024-01-01",
          some [⟨none, some "T", some "https://e.com", none⟩]⟩] := by
  decide

/-- C5 amended: when every collection carries a non-empty `createdAt` and
every tab a non-empty `id` (so the canonicalizer never synthesizes a
timestamp or a random id), canonicalization is a pure, deterministic
function of the logical content: two computations — at any two sampled
`now` timestamps and fresh-id streams — over raw objects whose property
lookups agree (whatever their key insertion order) produce byte-identical
serialized output. -/
theorem C5_amended_deterministic {X₁ X₂ : List RawCol}
    (hsame : List.Forall₂ SameCol X₁ X₂)
    (hids : ∀ c ∈ X₁, truthyO (jsGet c.fields "createdAt") = true ∧
      ∀ t ∈ c.tabs.getD [], truthyO (jsGet t.fields "id") = true)
    (n₁ n₂ : String) (f₁ f₂ : Nat → String) :
    canonicalString n₁ f₁ (X₁.map readCol) =
      canonicalString n₂ f₂ (X₂.map readCol) := by
  have hmap : X₁.map readCol = X₂.map readCol := readCols_eq_of_same hsame
  rw [canonicalString, canonicalString, ← hmap]
  have hL : ∀ c ∈ X₁.map readCol, truthyO c.createdAt = true ∧
      ∀ t ∈ c.tabs.getD [], truthyO t.id = true := by
    intro c hc
    obtain ⟨c₀, hc₀, rfl⟩ := List.mem_map.mp hc
    obtain ⟨h1, h2⟩ := hids c₀ hc₀
    refine ⟨h1, ?_⟩
    intro t ht
    simp only [readCol, Option.getD_some] at ht
    obtain ⟨t₀, ht₀, rfl⟩ := List.mem_map.mp ht
    exact h2 t₀ ht₀
  have hp := prepCols_indep hL n₁ n₂ f₁ f₂ 0 0
  rw [prepare, prepare, hp.1]

/-- Witness for C5 at two concrete raw objects carrying the same fields in
different key insertion order. -/
theorem C5_witness :
    canonicalString "nowA" (fun _ => "gA")
        (([⟨[("id", "c1"), ("name", "N"), ("createdAt", "2024")],
            some [⟨[("id", "t1"), ("title", "T"), ("url", "u")]⟩]⟩] :
          List RawCol).map readCol) =
      canonicalString "nowB" (fun _ => "gB")
        (([⟨[("createdAt", "2024"), ("id", "c1"), ("name", "N")],
            some [⟨[("url", "u"), ("id", "t1"), ("title", "T")]⟩]⟩] :
          List RawCol).map readCol) := by
  refine C5_amended_deterministic ?_ ?_ "nowA" "nowB" (fun _ => "gA")
    (fun _ => "gB")
  · refine List.Forall₂.cons ⟨?_, ?_⟩ List.Forall₂.nil
    · intro k
      by_cases h1 : ("id" : String) = k
      · subst h1
        decide
      · by_cases h2 : ("name" : String) = k
        · subst h2
          decide
        · by_cases h3 : ("createdAt" : String) = k
          · subst h3
            decide
          · simp [jsGet, List.find?, h1, h2, h3]
    · refine List.Forall₂.cons ?_ List.Forall₂.nil
      intro k
      by_cases h1 : ("id" : String) = k
      · subst h1
        decide
      · by_cases h2 : ("title" : String) = k
        · subst h2
          decide
        · by_cases h3 : ("url" : String) = k
          · subst h3
            decide
          · simp [jsGet, List.find?, h1, h2, h3]
  · intro c hc
    rw [List.mem_singleton] at hc
    subst hc
    exact ⟨by decide, by decide⟩

/-! ## C7 -/

/-- C7 counterexample: canonicalization is not idempotent.  For a tab with
no `title` and description `"Untitled"`, the first pass keeps the
description (it differs from the absent title) while synthesizing the
title `"Untitled"`; the second pass then sees `description == title` and
drops the key, so the two canonical forms differ. -/
theorem C7_counterexample :
    prepare "2024-01-01T00:00:00.000Z" (fun _ => "g")
        ((prepare "2024-01-01T00:00:00.000Z" (fun _ => "g")
            [⟨some "c1", some "N", none, none, some "2024-01-01",
              some [⟨some "t1", none, some "https://e.com",
                some "Untitled"⟩]⟩]).map colOutToIn) ≠
      prepare "2024-01-01T00:00:00.000Z" (fun _ => "g")
        [⟨some "c1", some "N", none, none, some "2024-01-01",
          some [⟨some "t1", none, some "https://e.com",
            some "Untitled"⟩]⟩] := by
  decide

/-- C7 amended: canonicalization is idempotent for every collection list
in which no collection has a falsy `name` together with the legacy title
`""`, and no tab has a falsy `title` together with description
`"Untitled"` (the sampled `now` and fresh ids being non-empty, as the
source's ISO timestamps and generated ids always are). -/
theorem C7_amended_idempotence (X : List ColIn) {now₁ : String}
    {fresh₁ : Nat → String} (hn : now₁ ≠ "") (hf : ∀ k, fresh₁ k ≠ "")
    (hnames : ∀ c ∈ X, ¬(truthyO c.name = false ∧ c.title = some ""))
    (htabs : ∀ c ∈ X, ∀ t ∈ c.tabs.getD [],
      truthyO t.title = true ∨ t.description ≠ some "Untitled")
    (now₂ : String) (fresh₂ : Nat → String) :
    prepare now₂ fresh₂ ((prepare now₁ fresh₁ X).map colOutToIn) =
      prepare now₁ fresh₁ X := by
  have h := prepCols_second_of_first hn hf hnames htabs now₂ fresh₂ 0 0
  rw [prepare, prepare, h]

/-- Witness for C7 at a concrete collection list. -/
theorem C7_witness :
    prepare "m" (fun _ => "h")
        ((prepare "n" (fun _ => "g")
            [⟨some "c2", some "Name", none, some "red", some "2024",
              some [⟨some "t", some "T", some "u", some "D"⟩]⟩]).map
          colOutToIn) =
      prepare "n" (fun _ => "g")
        [⟨some "c2", some "Name", none, some "red", some "2024",
          some [⟨some "t", some "T", some "u", some "D"⟩]⟩] := by
  refine C7_amended_idempotence _ (by decide) (fun _ => by decide) ?_ ?_ "m"
    (fun _ => "h")
  · intro c hc
    rw [List.mem_singleton] at hc
    subst hc
    decide
  · intro c hc
    rw [List.mem_singleton] at hc
    subst hc
    decide

/-! ## `GistService.mergeCollections`

The source (src/unnamed/part_005 lines 11-18, identically
src/unnamed/part_003 lines 660-667) builds a JS `Map`, inserts all local
collections keyed by `id`, then all remote collections, and returns the
values.  A JS `Map` keeps keys in first-insertion order; `set` on an
existing key replaces the value in place.  We model the map as an
association list with that exact semantics.  The key is the (possibly
absent) `id` property, so its type is `Option String`. -/

/-- `Map.prototype.set`: replace in place if the key exists, else append. -/
def mapInsert {κ α : Type} [DecidableEq κ] (m : List (κ × α)) (k : κ)
    (v : α) : List (κ × α) :=
  if m.any (fun p => p.1 = k) then
    m.map (fun p => if p.1 = k then (k, v) else p)
  else m ++ [(k, v)]

/-- Insert a list of collections into the map, left to right
(`list.forEach((c) => merged.set(c.id, c))`). -/
def mapInsertAll : List (Option String × ColIn) → List ColIn →
    List (Option String × ColIn)
  | m, [] => m
  | m, c :: cs => mapInsertAll (mapInsert m c.id c) cs

/-- `GistService.mergeCollections(local, remote)`. -/
def mergeCollections (loc remote : List ColIn) : List ColIn :=
  (mapInsertAll (mapInsertAll [] loc) remote).map (fun p => p.2)

/-- Keys of the association-list map. -/
def mapKeys {κ α : Type} (m : List (κ × α)) : List κ :=
  m.map (fun p => p.1)

theorem mapKeys_mapInsert_of_mem {κ α : Type} [DecidableEq κ]
    {m : List (κ × α)} {k : κ} (v : α) (h : k ∈ mapKeys m) :
    mapKeys (mapInsert m k v) = mapKeys m := by
  have hany : m.any (fun p => p.1 = k) = true := by
    rw [List.any_eq_true]
    obtain ⟨p, hp, hpk⟩ := List.mem_map.mp h
    exact ⟨p, hp, by simp [hpk]⟩
  simp only [mapInsert, if_pos hany, mapKeys, List.map_map]
  apply List.map_congr_left
  intro p _
  by_cases hp : p.1 = k <;> simp [hp]

theorem mapKeys_mapInsert_of_not_mem {κ α : Type} [DecidableEq κ]
    {m : List (κ × α)} {k : κ} (v : α) (h : k ∉ mapKeys m) :
    mapKeys (mapInsert m k v) = mapKeys m ++ [k] := by
  have hany : m.any (fun p => p.1 = k) = false := by
    rw [List.any_eq_false]
    intro p hp
    simp only [decide_eq_true_eq]
    intro hpk
    exact h (List.mem_map.mpr ⟨p, hp, hpk⟩)
  simp [mapInsert, hany, mapKeys]

theorem mapKeys_subset_mapInsert {κ α : Type} [DecidableEq κ]
    (m : List (κ × α)) (k : κ) (v : α) :
    mapKeys m ⊆ mapKeys (mapInsert m k v) := by
  by_cases h : k ∈ mapKeys m
  · rw [mapKeys_mapInsert_of_mem v h]
    exact fun x hx => hx
  · rw [mapKeys_mapInsert_of_not_mem v h]
    exact List.subset_append_left _ _


theorem mem_mapKeys_mapInsert {κ α : Type} [DecidableEq κ]
    (m : List (κ × α)) (k : κ) (v : α) :
    k ∈ mapKeys (mapInsert m k v) := by
  by_cases h : k ∈ mapKeys m
  · rw [mapKeys_mapInsert_of_mem v h]
    exact h
  · rw [mapKeys_mapInsert_of_not_mem v h]
    simp

theorem nodup_mapKeys_mapInsert {κ α : Type} [DecidableEq κ]
    {m : List (κ × α)} (k : κ) (v : α) (h : (mapKeys m).Nodup) :
    (mapKeys (mapInsert m k v)).Nodup := by
  by_cases hk : k ∈ mapKeys m
  · rw [mapKeys_mapInsert_of_mem v hk]
    exact h
  · rw [mapKeys_mapInsert_of_not_mem v hk]
    simpa [List.nodup_append] using ⟨h, fun hm => hk hm⟩

/-- Every map entry inserted by the merge satisfies `entry.2.id = key`. -/
def KeyedById (m : List (Option String × ColIn)) : Prop :=
  ∀ p ∈ m, p.2.id = p.1

theorem keyedById_mapInsert {m : List (Option String × ColIn)} {c : ColIn}
    (h : KeyedById m) : KeyedById (mapInsert m c.id c) := by
  intro p hp
  by_cases hany : m.any (fun q => q.1 = c.id) = true
  · simp only [mapInsert, if_pos hany, List.mem_map] at hp
    obtain ⟨q, hq, rfl⟩ := hp
    by_cases hqk : q.1 = c.id <;> simp [hqk, h q hq]
  · simp only [mapInsert, if_neg hany, List.mem_append] at hp
    rcases hp with hp | hp
    · exact h p hp
    · simp only [List.mem_singleton] at hp
      subst hp
      rfl

theorem keyedById_mapInsertAll {m : List (Option String × ColIn)}
    (h : KeyedById m) (cs : List ColIn) : KeyedById (mapInsertAll m cs) := by
  induction cs generalizing m with
  | nil => exact h
  | cons c cs ih => exact ih (keyedById_mapInsert h)

theorem nodup_mapKeys_mapInsertAll {m : List (Option String × ColIn)}
    (h : (mapKeys m).Nodup) (cs : List ColIn) :
    (mapKeys (mapInsertAll m cs)).Nodup := by
  induction cs generalizing m with
  | nil => exact h
  | cons c cs ih => exact ih (nodup_mapKeys_mapInsert _ _ h)

theorem mapKeys_subset_mapInsertAll (m : List (Option String × ColIn))
    (cs : List ColIn) : mapKeys m ⊆ mapKeys (mapInsertAll m cs) := by
  induction cs generalizing m with
  | nil => exact fun x hx => hx
  | cons c cs ih =>
    exact fun x hx => ih _ (mapKeys_subset_mapInsert m c.id c hx)

theorem mem_mapKeys_mapInsertAll {c : ColIn} {cs : List ColIn}
    (h : c ∈ cs) (m : List (Option String × ColIn)) :
    c.id ∈ mapKeys (mapInsertAll m cs) := by
  induction cs generalizing m with
  | nil => simp at h
  | cons c' cs ih =>
    rcases List.mem_cons.mp h with rfl | h
    · exact mapKeys_subset_mapInsertAll _ cs (mem_mapKeys_mapInsert m c.id c)
    · exact ih h _

/-- Inserting a list whose ids are fresh and mutually distinct appends the
corresponding entries in order. -/
theorem mapInsertAll_of_fresh {cs : List ColIn}
    {m : List (Option String × ColIn)} (hnd : (cs.map ColIn.id).Nodup)
    (hdis : ∀ c ∈ cs, c.id ∉ mapKeys m) :
    mapInsertAll m cs = m ++ cs.map (fun c => (c.id, c)) := by
  induction cs generalizing m with
  | nil => simp [mapInsertAll]
  | cons c cs ih =>
    have hc : c.id ∉ mapKeys m := hdis c (by simp)
    have hany : m.any (fun p => p.1 = c.id) = false := by
      rw [List.any_eq_false]
      intro p hp
      simp only [decide_eq_true_eq]
      intro hpk
      exact hc (List.mem_map.mpr ⟨p, hp, hpk⟩)
    have hins : mapInsert m c.id c = m ++ [(c.id, c)] := by
      simp [mapInsert, hany]
    rw [mapInsertAll, hins]
    rw [ih (by simpa using hnd.of_cons) ?_]
    · simp
    · intro x hx
      simp only [mapKeys, List.map_append, List.mem_append] at *
      rintro (hxm | hxc)
      · exact hdis x (by simp [hx]) (by simpa [mapKeys] using hxm)
      · simp only [List.map_cons, List.map_nil, List.mem_singleton] at hxc
        have : c.id ∉ cs.map ColIn.id := by
          simpa using (List.nodup_cons.mp hnd).1
        exact this (hxc ▸ List.mem_map.mpr ⟨x, hx, rfl⟩)

/-- Inserting the remote list into a key-nodup map updates matched entries
in place (the last same-id remote record winning) and appends the
fresh-id remote records in order. -/
theorem mapInsertAll_update {R : List ColIn}
    {m : List (Option String × ColIn)} (hm : (mapKeys m).Nodup)
    (hR : (R.map ColIn.id).Nodup) :
    mapInsertAll m R =
      m.map (fun p =>
        match R.find? (fun c => decide (c.id = p.1)) with
        | some c => (p.1, c)
        | none => p) ++
      (R.filter (fun c => decide (c.id ∉ mapKeys m))).map
        (fun c => (c.id, c)) := by
  induction R generalizing m with
  | nil =>
    simp [mapInsertAll]
  | cons c R ih =>
    have hcR : c.id ∉ R.map ColIn.id := by
      simpa using (List.nodup_cons.mp hR).1
    have hfindR : R.find? (fun x => decide (x.id = c.id)) = none := by
      rw [List.find?_eq_none]
      intro x hx
      simp only [decide_eq_true_eq]
      intro hxc
      exact hcR (hxc ▸ List.mem_map.mpr ⟨x, hx, rfl⟩)
    by_cases hc : c.id ∈ mapKeys m
    · have hany : m.any (fun p => p.1 = c.id) = true := by
        rw [List.any_eq_true]
        obtain ⟨p, hp, hpk⟩ := List.mem_map.mp hc
        exact ⟨p, hp, by simp [hpk]⟩
      have hins : mapInsert m c.id c =
          m.map (fun p => if p.1 = c.id then (c.id, c) else p) := by
        simp [mapInsert, hany]
      have hm₁ : (mapKeys (mapInsert m c.id c)).Nodup := by
        rw [mapKeys_mapInsert_of_mem c hc]
        exact hm
      rw [mapInsertAll, ih hm₁ hR.of_cons]
      have hkeys : mapKeys (mapInsert m c.id c) = mapKeys m :=
        mapKeys_mapInsert_of_mem c hc
      rw [hkeys, hins]
      congr 1
      · rw [List.map_map]
        apply List.map_congr_left
        intro p _
        by_cases hp : p.1 = c.id
        · have h1 : (c :: R).find? (fun x => decide (x.id = p.1)) = some c :=
            List.find?_cons_of_pos _ (by simp [hp])
          simp [Function.comp, if_pos hp, hfindR, h1, hp]
        · have h1 : (c :: R).find? (fun x => decide (x.id = p.1)) =
              R.find? (fun x => decide (x.id = p.1)) :=
            List.find?_cons_of_neg _
              (by simp only [decide_eq_true_eq]; exact fun h => hp h.symm)
          simp [Function.comp, if_neg hp, h1]
      · have hfc : (c :: R).filter (fun x => decide (x.id ∉ mapKeys m)) =
            R.filter (fun x => decide (x.id ∉ mapKeys m)) :=
          List.filter_cons_of_neg (by simpa using hc)
        rw [hfc]
    · have hany : m.any (fun p => p.1 = c.id) = false := by
        rw [List.any_eq_false]
        intro p hp
        simp only [decide_eq_true_eq]
        intro hpk
        exact hc (List.mem_map.mpr ⟨p, hp, hpk⟩)
      have hins : mapInsert m c.id c = m ++ [(c.id, c)] := by
        simp [mapInsert, hany]
      have hm' : (mapKeys (mapInsert m c.id c)).Nodup := by
        rw [hins]
        simp only [mapKeys, List.map_append]
        rw [List.nodup_append]
        refine ⟨hm, by simp, ?_⟩
        intro x hxm
        simp only [List.map_cons, List.map_nil, List.mem_singleton]
        intro hxc
        exact hc (hxc ▸ hxm)
      rw [mapInsertAll, ih hm' hR.of_cons, hins]
      rw [List.map_append, List.append_assoc]
      congr 1
      · apply List.map_congr_left
        intro p hp
        have hpne : p.1 ≠ c.id := fun hpk =>
          hc (List.mem_map.mpr ⟨p, hp, hpk⟩)
        have h1 : (c :: R).find? (fun x => decide (x.id = p.1)) =
            R.find? (fun x => decide (x.id = p.1)) :=
          List.find?_cons_of_neg _
            (by simp only [decide_eq_true_eq]; exact fun h => hpne h.symm)
        rw [h1]
      · have hfc : (c :: R).filter (fun x => decide (x.id ∉ mapKeys m)) =
            c :: R.filter (fun x => decide (x.id ∉ mapKeys m)) :=
          List.filter_cons_of_pos (by simpa using hc)
        rw [hfc]
        have hhead : (fun p =>
            match R.find? (fun c => decide (c.id = p.1)) with
            | some c => (p.1, c)
            | none => p) ((c.id, c) : Option String × ColIn) = (c.id, c) := by
          simp [hfindR]
        simp only [List.map_cons, List.map_nil, hhead, List.cons_append,
          List.nil_append]
        congr 1
        apply congrArg
        apply List.filter_congr
        intro x hx
        have hxne : x.id ≠ c.id := fun hxc =>
          hcR (hxc ▸ List.mem_map.mpr ⟨x, hx, rfl⟩)
        simp only [mapKeys, List.map_append, List.map_cons, List.map_nil,
          decide_eq_decide, List.mem_append, List.mem_singleton]
        constructor
        · intro h hmem
          exact h (Or.inl hmem)
        · rintro h (hmem | hmem)
          · exact h hmem
          · exact hxne hmem

/-- The ids of the merged output are exactly the keys of the underlying
map, in order. -/
theorem mergeIds_eq_mapKeys (L R : List ColIn) :
    (mergeCollections L R).map ColIn.id =
      mapKeys (mapInsertAll (mapInsertAll [] L) R) := by
  have hkeyed : KeyedById (mapInsertAll (mapInsertAll [] L) R) :=
    keyedById_mapInsertAll (keyedById_mapInsertAll (by intro p hp; simp at hp) L) R
  rw [mergeCollections, List.map_map, mapKeys]
  apply List.map_congr_left
  intro p hp
  exact hkeyed p hp

/-- Closed form of `GistService.mergeCollections` when each side's own ids
are distinct: every local collection in position, replaced en bloc by the
same-id remote record when one exists, followed by the remote collections
with fresh ids, in remote order. -/
theorem mergeCollections_eq {L R : List ColIn}
    (hL : (L.map ColIn.id).Nodup) (hR : (R.map ColIn.id).Nodup) :
    mergeCollections L R =
      L.map (fun c => (R.find? (fun x => decide (x.id = c.id))).getD c) ++
      R.filter (fun c => decide (c.id ∉ L.map ColIn.id)) := by
  have hphase1 : mapInsertAll [] L = L.map (fun c => (c.id, c)) := by
    have hh : mapInsertAll [] L = [] ++ L.map (fun c => (c.id, c)) :=
      mapInsertAll_of_fresh hL (by simp [mapKeys])
    simpa using hh
  have hkeys1 : mapKeys (L.map (fun c => (c.id, c))) = L.map ColIn.id := by
    simp [mapKeys, List.map_map, Function.comp]
  have hnd1 : (mapKeys (L.map (fun c => (c.id, c)))).Nodup := by
    rw [hkeys1]
    exact hL
  rw [mergeCollections, hphase1, mapInsertAll_update hnd1 hR]
  rw [List.map_append, List.map_map, List.map_map]
  congr 1
  · apply List.map_congr_left
    intro c _
    simp only [Function.comp]
    cases hfind : R.find? (fun x => decide (x.id = c.id)) <;> simp [hfind]
  · rw [hkeys1]
    have h2 : ((fun p => p.2) ∘ fun c : ColIn => ((c.id : Option String), c))
        = id := rfl
    rw [List.map_map, h2, List.map_id]

/-- C10: the merge output never contains two collections with the same
id; and when each input side's own ids are distinct, the output is the
local collections in local order — each replaced, as a whole record, by
the same-id remote record when the remote side has one — followed by the
remote collections whose ids are new, in remote order. -/
theorem C10_merge_shape (L R : List ColIn) :
    ((mergeCollections L R).map ColIn.id).Nodup ∧
      ((L.map ColIn.id).Nodup → (R.map ColIn.id).Nodup →
        mergeCollections L R =
          L.map (fun c => (R.find? (fun x => decide (x.id = c.id))).getD c) ++
          R.filter (fun c => decide (c.id ∉ L.map ColIn.id))) := by
  constructor
  · rw [mergeIds_eq_mapKeys]
    exact nodup_mapKeys_mapInsertAll
      (nodup_mapKeys_mapInsertAll (by simp [mapKeys]) L) R
  · intro hL hR
    exact mergeCollections_eq hL hR

/-- Witness for C10 at concrete lists with one overlapping id. -/
theorem C10_witness :
    mergeCollections
        [⟨some "a", some "A1", none, none, none, none⟩,
         ⟨some "b", some "B1", none, none, none, none⟩]
        [⟨some "b", some "B2", none, none, none, none⟩,
         ⟨some "c", some "C2", none, none, none, none⟩] =
      [⟨some "a", some "A1", none, none, none, none⟩,
       ⟨some "b", some "B2", none, none, none, none⟩,
       ⟨some "c", some "C2", none, none, none, none⟩] := by
  have h := (C10_merge_shape
    [⟨some "a", some "A1", none, none, none, none⟩,
     ⟨some "b", some "B1", none, none, none, none⟩]
    [⟨some "b", some "B2", none, none, none, none⟩,
     ⟨some "c", some "C2", none, none, none, none⟩]).2 (by decide) (by decide)
  rw [h]
  decide

/-- C3: for lists whose ids are pairwise distinct across both sides, the
merge is the concatenation `L ++ R` — exactly `|L| + |R|` collections,
each unchanged; and unconditionally, every id present on either side is
still present in the merge output (no deletion propagation). -/
theorem C3_merge_union (L R : List ColIn) :
    (((L ++ R).map ColIn.id).Nodup → mergeCollections L R = L ++ R) ∧
      (∀ c ∈ L ++ R, c.id ∈ (mergeCollections L R).map ColIn.id) := by
  constructor
  · intro hnd
    rw [List.map_append, List.nodup_append] at hnd
    obtain ⟨hL, hR, hdis⟩ := hnd
    rw [mergeCollections_eq hL hR]
    congr 1
    · have hnone : ∀ c ∈ L, R.find? (fun x => decide (x.id = c.id)) = none := by
        intro c hc
        rw [List.find?_eq_none]
        intro x hx
        simp only [decide_eq_true_eq]
        intro hxc
        exact hdis (List.mem_map.mpr ⟨c, hc, rfl⟩)
          (hxc ▸ List.mem_map.mpr ⟨x, hx, rfl⟩)
      calc L.map (fun c => (R.find? (fun x => decide (x.id = c.id))).getD c)
          = L.map id := by
            apply List.map_congr_left
            intro c hc
            rw [hnone c hc]
            rfl
        _ = L := List.map_id L
    · rw [List.filter_eq_self]
      intro c hc
      simp only [decide_eq_true_eq]
      intro hmem
      exact hdis hmem (List.mem_map.mpr ⟨c, hc, rfl⟩)
  · intro c hc
    rw [mergeIds_eq_mapKeys]
    rcases List.mem_append.mp hc with hc | hc
    · exact mapKeys_subset_mapInsertAll _ R (mem_mapKeys_mapInsertAll hc [])
    · exact mem_mapKeys_mapInsertAll hc _

/-- Witness for C3 at concrete disjoint lists. -/
theorem C3_witness :
    mergeCollections [⟨some "x", some "X", none, none, none, none⟩]
        [⟨some "y", some "Y", none, none, none, none⟩] =
      [⟨some "x", some "X", none, none, none, none⟩,
       ⟨some "y", some "Y", none, none, none, none⟩] :=
  (C3_merge_union [⟨some "x", some "X", none, none, none, none⟩]
    [⟨some "y", some "Y", none, none, none, none⟩]).1 (by decide)

/-! ## `loadFromGistAndMerge` (src/unnamed/part_004 lines 1823-1994)

The other merge variant of the repository reconciles per entity with
timestamps: collection metadata (`name`/`color`/`updatedAt`) is taken
from whichever same-id side is newer, while the tab list is merged
per-tab (same-id tab: newer wins; otherwise union).  `updatedAt` values
are ISO strings compared through `new Date(...)`; we model each
timestamp as the instant it denotes (a `Nat`, epoch 0 for the
`new Date(0).toISOString()` default), which preserves exactly the
ordering and defaulting the code observes. -/

/-- A collection as `loadFromGistAndMerge` receives it (local store or
parsed gist JSON).  The code reads `tabs` directly on local collections
and as `(gistCol.tabs || [])` on gist collections; we only instantiate
records whose `tabs` array is present. -/
structure GTab where
  id : Option String
  title : Option String
  url : Option String
  description : Option String
  updatedAt : Option Nat
deriving DecidableEq, Repr

structure GCol where
  id : Option String
  name : Option String
  title : Option String
  color : Option String
  updatedAt : Option Nat
  tabs : Option (List GTab)
deriving DecidableEq, Repr

/-- A tab in the "fixed property order" shape the merge constructs:
`{id, title, url, description, updatedAt: x || epoch0}`. -/
structure NTab where
  id : Option String
  title : Option String
  url : Option String
  description : Option String
  updatedAt : Nat
deriving DecidableEq, Repr

/-- A collection in the fixed-order shape the merge constructs. -/
structure NCol where
  id : Option String
  name : Option String
  color : Option String
  updatedAt : Nat
  tabs : List NTab
deriving DecidableEq, Repr

/-- The per-tab normalization `{id, title, url, description,
updatedAt: tab.updatedAt || new Date(0).toISOString()}` used on both
sides. -/
def normTab (t : GTab) : NTab :=
  { id := t.id, title := t.title, url := t.url, description := t.description
    updatedAt := t.updatedAt.getD 0 }

/-- Normalization of a gist collection: `name || title`,
`color || 'white'`, `updatedAt || epoch0`, tabs `(tabs || [])`
normalized. -/
def normGist (c : GCol) : NCol :=
  { id := c.id
    name := jsOr c.name c.title
    color := some (jsOrD c.color "white")
    updatedAt := c.updatedAt.getD 0
    tabs := (c.tabs.getD []).map normTab }

/-- Normalization of a local collection: as `normGist` but `color` is
copied as-is (no `'white'` default on the local side). -/
def normLocal (c : GCol) : NCol :=
  { id := c.id
    name := jsOr c.name c.title
    color := c.color
    updatedAt := c.updatedAt.getD 0
    tabs := (c.tabs.getD []).map normTab }

/-- `new Map(list.map(x => [key x, x]))`. -/
def buildMap {α : Type} (key : α → Option String) (xs : List α) :
    List (Option String × α) :=
  xs.foldl (fun m x => mapInsert m (key x) x) []

/-- `Map.prototype.get`. -/
def mapGet {α : Type} (m : List (Option String × α)) (k : Option String) :
    Option α :=
  (m.find? (fun p => p.1 = k)).map (fun p => p.2)

/-- `Map.prototype.delete` (iteration order of survivors unchanged). -/
def mapDelete {α : Type} (m : List (Option String × α)) (k : Option String) :
    List (Option String × α) :=
  m.filter (fun p => ¬p.1 = k)

/-- The gist-tab loop of the merge: walk the normalized gist tabs against
the map of raw local tabs, returning the pushed tabs and the surviving
map of local-only tabs. -/
def gistMergeTabsGo : List (Option String × GTab) → List NTab →
    List NTab × List (Option String × GTab)
  | m, [] => ([], m)
  | m, gt :: gts =>
    match mapGet m gt.id with
    | some lt =>
      let chosen := if gt.updatedAt < (normTab lt).updatedAt
        then normTab lt else gt
      let rest := gistMergeTabsGo (mapDelete m gt.id) gts
      (chosen :: rest.1, rest.2)
    | none =>
      let rest := gistMergeTabsGo m gts
      (gt :: rest.1, rest.2)

/-- The per-collection tab merge: gist tabs (same-id: strictly-newer local
tab wins, else the gist tab), then the remaining local-only tabs. -/
def gistMergeTabs (localTabs : List GTab) (gistTabs : List NTab) :
    List NTab :=
  let r := gistMergeTabsGo (buildMap GTab.id localTabs) gistTabs
  r.1 ++ r.2.map (fun p => normTab p.2)

/-- The collection loop of `loadFromGistAndMerge`. -/
def gistMergeGo : List (Option String × GCol) → List GCol →
    List NCol × List (Option String × GCol)
  | m, [] => ([], m)
  | m, gc :: gcs =>
    let g := normGist gc
    match mapGet m g.id with
    | some lc =>
      let l := normLocal lc
      let newer := g.updatedAt < l.updatedAt
      let merged : NCol :=
        { id := g.id
          name := if newer then l.name else g.name
          color := if newer then l.color else g.color
          updatedAt := if newer then l.updatedAt else g.updatedAt
          tabs := gistMergeTabs (lc.tabs.getD []) g.tabs }
      let rest := gistMergeGo (mapDelete m g.id) gcs
      (merged :: rest.1, rest.2)
    | none =>
      let rest := gistMergeGo m gcs
      (g :: rest.1, rest.2)

/-- `loadFromGistAndMerge`'s reconciliation of the local collection list
with the parsed gist collection list. -/
def gistMerge (localCols gistCols : List GCol) : List NCol :=
  let r := gistMergeGo (buildMap GCol.id localCols) gistCols
  r.1 ++ r.2.map (fun p => normLocal p.2)

/-! ## C1 -/

/-- C1 counterexample: merging is not "later `updatedAt` wins en bloc,
with no field-level mixing".  In the `loadFromGistAndMerge` variant, for
local `a` (collection updatedAt 1, its tab updated at 10) and remote `b`
(collection updatedAt 2 > 1, its same-id tab updated at 0), the merged
record is NOT `b` as a whole: it carries `b`'s metadata but `a`'s tab —
field-level mixing at the collection/tab granularity. -/
theorem C1_counterexample :
    ((⟨some "c", some "A", none, some "red", some 1,
        some [⟨some "t", some "TA", some "u", none, some 10⟩]⟩ :
          GCol).updatedAt.getD 0 <
      (⟨some "c", some "B", none, some "blue", some 2,
        some [⟨some "t", some "TB", some "u", none, some 0⟩]⟩ :
          GCol).updatedAt.getD 0) ∧
    gistMerge
        [⟨some "c", some "A", none, some "red", some 1,
          some [⟨some "t", some "TA", some "u", none, some 10⟩]⟩]
        [⟨some "c", some "B", none, some "blue", some 2,
          some [⟨some "t", some "TB", some "u", none, some 0⟩]⟩] ≠
      [normGist ⟨some "c", some "B", none, some "blue", some 2,
        some [⟨some "t", some "TB", some "u", none, some 0⟩]⟩] ∧
    gistMerge
        [⟨some "c", some "A", none, some "red", some 1,
          some [⟨some "t", some "TA", some "u", none, some 10⟩]⟩]
        [⟨some "c", some "B", none, some "blue", some 2,
          some [⟨some "t", some "TB", some "u", none, some 0⟩]⟩] =
      [⟨some "c", some "B", some "blue", 2,
        [⟨some "t", some "TA", some "u", none, 10⟩]⟩] := by
  refine ⟨by decide, by decide, by decide⟩

/-- C1 amended: in `GistService.mergeCollections` the conflict rule is
positional, not timestamp-based — for any two same-id collections the
remote record replaces the local one as a whole, whatever the two
`updatedAt` values.  (With `a` older and `b` the newer remote this gives
the spec's `merge({a},{b}) = {b}`, but equally so when `a` is newer.) -/
theorem C1_amended_remote_wins_en_bloc (a b : ColIn) (h : a.id = b.id) :
    mergeCollections [a] [b] = [b] := by
  simp [mergeCollections, mapInsertAll, mapInsert, h]

/-- Witness for C1's amended theorem at concrete same-id records. -/
theorem C1_witness :
    mergeCollections [⟨some "c", some "old", none, none, none, none⟩]
        [⟨some "c", some "new", none, none, none, none⟩] =
      [⟨some "c", some "new", none, none, none, none⟩] :=
  C1_amended_remote_wins_en_bloc _ _ (by decide)

/-! ## `GistService.syncWithGist` (src/unnamed/part_005 lines 25-83)

The orchestrator consults `chrome.storage` for `githubToken`, `gistId`
and `lastModified` (destructured with default `0`), fetches the gist,
and either merges (remote strictly newer) or pushes (otherwise, and only
when the canonicalized bytes differ).  External effects are captured in
a result record: the fields written to local storage, the removal of the
stale `gistId`, and the content PATCHed to the gist, `none`/`false`
when the run does not perform them.  `fetch`'s outcome, `JSON.parse`,
and the impure inputs of canonicalization and sorting enter as explicit
parameters. -/

/-- Outcome of the gist GET: an ok response (with the optional
`mipa-data.json` content and the parsed `updated_at` instant), a 404, or
anything else that lands in the `catch` (non-ok non-404 status, network
rejection, malformed response body). -/
inductive FetchResult where
  | success (content : Option String) (updatedAt : Nat)
  | notFound
  | failure
deriving DecidableEq, Repr

structure SyncEnv where
  githubToken : Option String
  gistId : Option String
  storedLastModified : Option Nat
  fetchRes : FetchResult
  localCols : List ColIn
  parseRemote : String → Option (List ColIn)
  nowPush : String
  freshPush : Nat → String
  nowUpd : String
  freshUpd : Nat → String
  nowSave : String
  freshSave : Nat → String
  nowMillis : Nat
  dateVal : String → Int

structure SyncResult where
  savedCollections : Option (List ColOut)
  savedLastModified : Option Nat
  removedGistId : Bool
  pushed : Option String
  lastSyncedData : Option String
  retVal : Option (List ColIn)
deriving DecidableEq, Repr

/-- Insertion step of `MipaUtils.sortCollections`'s stable descending
sort by `new Date(createdAt)`. -/
def insertDesc (dv : String → Int) (x : ColOut) : List ColOut → List ColOut
  | [] => [x]
  | y :: ys =>
    if dv y.createdAt ≤ dv x.createdAt then x :: y :: ys
    else y :: insertDesc dv x ys

/-- `MipaUtils.sortCollections`: stable sort, descending by the parsed
`createdAt` instant (`dv` models `new Date(...)`'s value). -/
def sortCollections (dv : String → Int) (cs : List ColOut) : List ColOut :=
  cs.foldr (insertDesc dv) []

/-- Content computed and PATCHed by `GistService.updateGist`:
`deterministicStringify(prepareCollectionsForSaving(collections))`. -/
def updateGistContent (now : String) (fresh : Nat → String)
    (cols : List ColIn) : String :=
  canonicalString now fresh cols

/-- `GistService.syncWithGist`. -/
def syncWithGist (e : SyncEnv) : SyncResult :=
  if truthyO e.githubToken && truthyO e.gistId then
    match e.fetchRes with
    | FetchResult.notFound =>
      { savedCollections := none, savedLastModified := none
        removedGistId := true, pushed := none, lastSyncedData := none
        retVal := none }
    | FetchResult.failure =>
      { savedCollections := none, savedLastModified := none
        removedGistId := false, pushed := none, lastSyncedData := none
        retVal := none }
    | FetchResult.success content upd =>
      if truthyO content = false then
        { savedCollections := none, savedLastModified := none
          removedGistId := false
          pushed := some (updateGistContent e.nowUpd e.freshUpd e.localCols)
          lastSyncedData :=
            some (updateGistContent e.nowUpd e.freshUpd e.localCols)
          retVal := some e.localCols }
      else if e.storedLastModified.getD 0 < upd then
        match e.parseRemote (content.getD "") with
        | none =>
          { savedCollections := none, savedLastModified := none
            removedGistId := false, pushed := none, lastSyncedData := none
            retVal := none }
        | some remoteCollections =>
          { savedCollections :=
              some (sortCollections e.dateVal (prepare e.nowSave e.freshSave
                (mergeCollections e.localCols remoteCollections)))
            savedLastModified := some e.nowMillis
            removedGistId := false, pushed := none, lastSyncedData := none
            retVal := some (mergeCollections e.localCols remoteCollections) }
      else
        if canonicalString e.nowPush e.freshPush e.localCols ≠
            content.getD "" then
          { savedCollections := none, savedLastModified := none
            removedGistId := false
            pushed := some (updateGistContent e.nowUpd e.freshUpd
              ((prepare e.nowPush e.freshPush e.localCols).map colOutToIn))
            lastSyncedData := some (updateGistContent e.nowUpd e.freshUpd
              ((prepare e.nowPush e.freshPush e.localCols).map colOutToIn))
            retVal := some e.localCols }
        else
          { savedCollections := none, savedLastModified := none
            removedGistId := false, pushed := none, lastSyncedData := none
            retVal := some e.localCols }
  else
    { savedCollections := none, savedLastModified := none
      removedGistId := false, pushed := none, lastSyncedData := none
      retVal := none }

/-- The content pushed in the `Pushing` branch re-canonicalizes the
already-canonical `prepared` inside `updateGist`; under the
idempotence-edge hypotheses that second pass is the identity, so the
pushed bytes are the canonicalized local content itself. -/
theorem pushed_content_eq {L : List ColIn} {now₁ : String}
    {fresh₁ : Nat → String} (hn : now₁ ≠ "") (hf : ∀ k, fresh₁ k ≠ "")
    (hnames : ∀ c ∈ L, ¬(truthyO c.name = false ∧ c.title = some ""))
    (htabs : ∀ c ∈ L, ∀ t ∈ c.tabs.getD [],
      truthyO t.title = true ∨ t.description ≠ some "Untitled")
    (now₂ : String) (fresh₂ : Nat → String) :
    updateGistContent now₂ fresh₂ ((prepare now₁ fresh₁ L).map colOutToIn) =
      canonicalString now₁ fresh₁ L := by
  have h := prepCols_second_of_first hn hf hnames htabs now₂ fresh₂ 0 0
  simp only [updateGistContent, canonicalString, prepare]
  rw [h]

/-! ## C2 -/

/-- C2: for a sync where the remote blob exists with non-empty content —
if the remote `updated_at` is strictly newer than the stored
`lastModified`, the run persists the merge of the parsed remote snapshot
into the local one (collections plus a fresh `lastModified`) and sends
nothing to the remote; otherwise it writes nothing locally to
`collections`/`lastModified`, and PATCHes the canonicalized local
content exactly when those bytes differ from the remote content.  (The
idempotence-edge hypotheses on the local list make the doubly
canonicalized pushed bytes equal the canonicalized local content; the
source's generated ids and ISO `now` are never empty.) -/
theorem C2_sync_decision_rule (e : SyncEnv) (s : String) (upd : Nat)
    (htok : truthyO e.githubToken = true) (hgid : truthyO e.gistId = true)
    (hfetch : e.fetchRes = FetchResult.success (some s) upd) (hs : s ≠ "")
    (hn : e.nowPush ≠ "") (hf : ∀ k, e.freshPush k ≠ "")
    (hnames : ∀ c ∈ e.localCols, ¬(truthyO c.name = false ∧ c.title = some ""))
    (htabs : ∀ c ∈ e.localCols, ∀ t ∈ c.tabs.getD [],
      truthyO t.title = true ∨ t.description ≠ some "Untitled") :
    (e.storedLastModified.getD 0 < upd →
      ∀ R, e.parseRemote s = some R →
        (syncWithGist e).pushed = none ∧
        (syncWithGist e).lastSyncedData = none ∧
        (syncWithGist e).savedCollections =
          some (sortCollections e.dateVal (prepare e.nowSave e.freshSave
            (mergeCollections e.localCols R))) ∧
        (syncWithGist e).savedLastModified = some e.nowMillis ∧
        (syncWithGist e).retVal = some (mergeCollections e.localCols R)) ∧
    (¬ e.storedLastModified.getD 0 < upd →
      (syncWithGist e).savedCollections = none ∧
      (syncWithGist e).savedLastModified = none ∧
      (canonicalString e.nowPush e.freshPush e.localCols ≠ s →
        (syncWithGist e).pushed =
          some (canonicalString e.nowPush e.freshPush e.localCols)) ∧
      (canonicalString e.nowPush e.freshPush e.localCols = s →
        (syncWithGist e).pushed = none)) := by
  have htr : truthyO (some s) = true := by simpa [truthyO] using hs
  constructor
  · intro hlt R hparse
    have hsync : syncWithGist e =
        { savedCollections :=
            some (sortCollections e.dateVal (prepare e.nowSave e.freshSave
              (mergeCollections e.localCols R)))
          savedLastModified := some e.nowMillis
          removedGistId := false, pushed := none, lastSyncedData := none
          retVal := some (mergeCollections e.localCols R) } := by
      simp [syncWithGist, hfetch, htok, hgid, htr, hlt, hparse]
    rw [hsync]
    exact ⟨rfl, rfl, rfl, rfl, rfl⟩
  · intro hge
    have hpush := pushed_content_eq hn hf hnames htabs e.nowUpd e.freshUpd
    by_cases hne : canonicalString e.nowPush e.freshPush e.localCols = s
    · have hsync : syncWithGist e =
          { savedCollections := none, savedLastModified := none
            removedGistId := false, pushed := none, lastSyncedData := none
            retVal := some e.localCols } := by
        simp [syncWithGist, hfetch, htok, hgid, htr, hge, hne]
      rw [hsync]
      exact ⟨rfl, rfl, fun h => absurd hne h, fun _ => rfl⟩
    · have hsync : syncWithGist e =
          { savedCollections := none, savedLastModified := none
            removedGistId := false
            pushed := some (updateGistContent e.nowUpd e.freshUpd
              ((prepare e.nowPush e.freshPush e.localCols).map colOutToIn))
            lastSyncedData := some (updateGistContent e.nowUpd e.freshUpd
              ((prepare e.nowPush e.freshPush e.localCols).map colOutToIn))
            retVal := some e.localCols } := by
        simp [syncWithGist, hfetch, htok, hgid, htr, hge, hne]
      rw [hsync]
      exact ⟨rfl, rfl, fun _ => by rw [hpush], fun h => absurd h hne⟩

/-- Witness for C2 at a concrete environment taking the merge branch. -/
theorem C2_witness :
    (syncWithGist
      { githubToken := some "tok", gistId := some "gid"
        storedLastModified := some 3
        fetchRes := FetchResult.success (some "remote") 5
        localCols := [⟨some "a", some "A", none, some "red", some "2024",
          some []⟩]
        parseRemote := fun _ => some [⟨some "b", some "B", none, none,
          some "2023", some []⟩]
        nowPush := "n", freshPush := fun _ => "g"
        nowUpd := "n", freshUpd := fun _ => "g"
        nowSave := "n", freshSave := fun _ => "g"
        nowMillis := 99, dateVal := fun _ => 0 }).pushed = none ∧
    (syncWithGist
      { githubToken := some "tok", gistId := some "gid"
        storedLastModified := some 3
        fetchRes := FetchResult.success (some "remote") 5
        localCols := [⟨some "a", some "A", none, some "red", some "2024",
          some []⟩]
        parseRemote := fun _ => some [⟨some "b", some "B", none, none,
          some "2023", some []⟩]
        nowPush := "n", freshPush := fun _ => "g"
        nowUpd := "n", freshUpd := fun _ => "g"
        nowSave := "n", freshSave := fun _ => "g"
        nowMillis := 99, dateVal := fun _ => 0 }).savedLastModified =
      some 99 := by
  have h := (C2_sync_decision_rule
    { githubToken := some "tok", gistId := some "gid"
      storedLastModified := some 3
      fetchRes := FetchResult.success (some "remote") 5
      localCols := [⟨some "a", some "A", none, some "red", some "2024",
        some []⟩]
      parseRemote := fun _ => some [⟨some "b", some "B", none, none,
        some "2023", some []⟩]
      nowPush := "n", freshPush := fun _ => "g"
      nowUpd := "n", freshUpd := fun _ => "g"
      nowSave := "n", freshSave := fun _ => "g"
      nowMillis := 99, dateVal := fun _ => 0 } "remote" 5 (by decide)
    (by decide) rfl (by decide) (by decide)
    (fun _ => by show ("g" : String) ≠ ""; decide)
    (by intro c hc; rw [List.mem_singleton] at hc; subst hc; decide)
    (by intro c hc; rw [List.mem_singleton] at hc; subst hc; decide)).1
    (by decide) [⟨some "b", some "B", none, none, some "2023", some []⟩] rfl
  exact ⟨h.1, h.2.2.2.1⟩

/-! ## C4 -/

/-- C4: when the remote content does not parse as JSON, the sync writes
neither `collections` nor `lastModified` to local storage, never feeds a
merge result anywhere (its return value is `null` or the untouched local
list), and on the merge path (remote strictly newer) it aborts outright:
no return value, no PATCH, no `lastSyncedData`. -/
theorem C4_malformed_remote_preserves_local (e : SyncEnv) (s : String)
    (upd : Nat) (hfetch : e.fetchRes = FetchResult.success (some s) upd)
    (hparse : e.parseRemote s = none) :
    (syncWithGist e).savedCollections = none ∧
    (syncWithGist e).savedLastModified = none ∧
    ((syncWithGist e).retVal = none ∨
      (syncWithGist e).retVal = some e.localCols) ∧
    (truthyO e.githubToken = true → truthyO e.gistId = true → s ≠ "" →
      e.storedLastModified.getD 0 < upd →
      (syncWithGist e).retVal = none ∧ (syncWithGist e).pushed = none ∧
      (syncWithGist e).lastSyncedData = none) := by
  by_cases htg : (truthyO e.githubToken && truthyO e.gistId) = true
  case neg =>
    have hsync : syncWithGist e =
        { savedCollections := none, savedLastModified := none
          removedGistId := false, pushed := none, lastSyncedData := none
          retVal := none } := by
      simp [syncWithGist, htg]
    rw [hsync]
    exact ⟨rfl, rfl, Or.inl rfl, fun h1 h2 _ _ => by
      rw [h1, h2] at htg
      simp at htg⟩
  case pos =>
    by_cases hcontent : truthyO (some s) = false
    · have hsync : syncWithGist e =
          { savedCollections := none, savedLastModified := none
            removedGistId := false
            pushed :=
              some (updateGistContent e.nowUpd e.freshUpd e.localCols)
            lastSyncedData :=
              some (updateGistContent e.nowUpd e.freshUpd e.localCols)
            retVal := some e.localCols } := by
        simp [syncWithGist, hfetch, htg, hcontent]
      rw [hsync]
      refine ⟨rfl, rfl, Or.inr rfl, fun _ _ hs _ => ?_⟩
      simp [truthyO, hs] at hcontent
    · have hcontent' : truthyO (some s) = true := by
        simpa using hcontent
      by_cases hlt : e.storedLastModified.getD 0 < upd
      · have hsync : syncWithGist e =
            { savedCollections := none, savedLastModified := none
              removedGistId := false, pushed := none, lastSyncedData := none
              retVal := none } := by
          simp [syncWithGist, hfetch, htg, hcontent', hlt, hparse]
        rw [hsync]
        exact ⟨rfl, rfl, Or.inl rfl, fun _ _ _ _ => ⟨rfl, rfl, rfl⟩⟩
      · by_cases hne : canonicalString e.nowPush e.freshPush e.localCols = s
        · have hsync : syncWithGist e =
              { savedCollections := none, savedLastModified := none
                removedGistId := false, pushed := none
                lastSyncedData := none, retVal := some e.localCols } := by
            simp [syncWithGist, hfetch, htg, hcontent', hlt, hne]
          rw [hsync]
          exact ⟨rfl, rfl, Or.inr rfl, fun _ _ _ h => absurd h hlt⟩
        · have hsync : syncWithGist e =
              { savedCollections := none, savedLastModified := none
                removedGistId := false
                pushed := some (updateGistContent e.nowUpd e.freshUpd
                  ((prepare e.nowPush e.freshPush e.localCols).map
                    colOutToIn))
                lastSyncedData := some (updateGistContent e.nowUpd
                  e.freshUpd ((prepare e.nowPush e.freshPush
                    e.localCols).map colOutToIn))
                retVal := some e.localCols } := by
            simp [syncWithGist, hfetch, htg, hcontent', hlt, hne]
          rw [hsync]
          exact ⟨rfl, rfl, Or.inr rfl, fun _ _ _ h => absurd h hlt⟩

/-- Witness for C4 at a concrete environment with unparseable remote
content. -/
theorem C4_witness :
    (syncWithGist
      { githubToken := some "tok", gistId := some "gid"
        storedLastModified := some 3
        fetchRes := FetchResult.success (some "not json") 5
        localCols := [], parseRemote := fun _ => none
        nowPush := "n", freshPush := fun _ => "g"
        nowUpd := "n", freshUpd := fun _ => "g"
        nowSave := "n", freshSave := fun _ => "g"
        nowMillis := 99, dateVal := fun _ => 0 }).savedCollections = none ∧
    (syncWithGist
      { githubToken := some "tok", gistId := some "gid"
        storedLastModified := some 3
        fetchRes := FetchResult.success (some "not json") 5
        localCols := [], parseRemote := fun _ => none
        nowPush := "n", freshPush := fun _ => "g"
        nowUpd := "n", freshUpd := fun _ => "g"
        nowSave := "n", freshSave := fun _ => "g"
        nowMillis := 99, dateVal := fun _ => 0 }).retVal = none := by
  have h := C4_malformed_remote_preserves_local
    { githubToken := some "tok", gistId := some "gid"
      storedLastModified := some 3
      fetchRes := FetchResult.success (some "not json") 5
      localCols := [], parseRemote := fun _ => none
      nowPush := "n", freshPush := fun _ => "g"
      nowUpd := "n", freshUpd := fun _ => "g"
      nowSave := "n", freshSave := fun _ => "g"
      nowMillis := 99, dateVal := fun _ => 0 } "not json" 5 rfl rfl
  exact ⟨h.1, (h.2.2.2 (by decide) (by decide) (by decide) (by decide)).1⟩

/-! ## `updateGist` variants (C8)

The repository holds two different remote-update routines.
`MipaPopup.updateGist` (src/js/popup.js lines 288-316, identically
src/js/mipa.js lines 1414-1442) checks the PATCH response: on 404 it
calls `createGist` with the same data and persists the new id under
`gistId`; on other non-ok statuses it throws.  `GistService.updateGist`
(src/unnamed/part_005 lines 91-104, identically part_003 lines 740-753)
issues the PATCH and never inspects the response at all: no fallback, no
error, and `lastSyncedData` is written regardless. -/

/-- Status of an HTTP response as the source distinguishes it. -/
inductive HttpStatus where
  | ok
  | notFound
  | otherError
deriving DecidableEq, Repr

/-- External writes performed by `MipaPopup.updateGist`. -/
structure UpdateOutcome where
  createdContent : Option String
  storedGistId : Option String
deriving DecidableEq, Repr

/-- `MipaPopup.updateGist(gistId, token, data)`: the PATCH body is
`data`; `patchStatus` is the PATCH response, `createResult` the id
assigned by `createGist` when that POST succeeds (`none`: the POST
failed, so `createGist` throws). -/
def updateGistPopup (patchStatus : HttpStatus)
    (createResult : Option String) (data : String) :
    Except String UpdateOutcome :=
  match patchStatus with
  | HttpStatus.ok => Except.ok { createdContent := none, storedGistId := none }
  | HttpStatus.notFound =>
    match createResult with
    | some newId =>
      Except.ok { createdContent := some data, storedGistId := some newId }
    | none => Except.error "Failed to create gist"
  | HttpStatus.otherError => Except.error "Failed to update gist"

/-- External writes performed by `GistService.updateGist`. -/
structure ServiceUpdateOutcome where
  patchedContent : String
  createdContent : Option String
  storedGistId : Option String
  lastSyncedData : String
deriving DecidableEq, Repr

/-- `GistService.updateGist(token, gistId, collections)`: canonicalizes,
PATCHes, and stores `lastSyncedData` — the response status is never
consulted, so the body is the same whatever `patchStatus` holds. -/
def updateGistService (patchStatus : HttpStatus) (cols : List ColIn)
    (now : String) (fresh : Nat → String) : ServiceUpdateOutcome :=
  { patchedContent := canonicalString now fresh cols
    createdContent := none
    storedGistId := none
    lastSyncedData := canonicalString now fresh cols }

/-! ## C8 -/

/-- C8 counterexample: the stale-handle fallback does NOT happen on every
404-ing update.  `GistService.updateGist`, given a handle that now 404s,
creates no new gist and persists no new handle — it does not even check
the response, and still records `lastSyncedData` as though the write
succeeded. -/
theorem C8_counterexample :
    (updateGistService HttpStatus.notFound
        [⟨some "c", some "N", none, none, some "2024", some []⟩] "now"
        (fun _ => "g")).createdContent = none ∧
    (updateGistService HttpStatus.notFound
        [⟨some "c", some "N", none, none, some "2024", some []⟩] "now"
        (fun _ => "g")).storedGistId = none ∧
    (updateGistService HttpStatus.notFound
        [⟨some "c", some "N", none, none, some "2024", some []⟩] "now"
        (fun _ => "g")).lastSyncedData =
      canonicalString "now" (fun _ => "g")
        [⟨some "c", some "N", none, none, some "2024", some []⟩] :=
  ⟨rfl, rfl, rfl⟩

/-- C8 amended: the popup variant (`MipaPopup.updateGist`, likewise
`mipa.js`) does perform the fallback: a PATCH answered 404 leads to a
successful `createGist` with the same content, the new handle is
persisted, and the call completes without error; a PATCH answered ok
performs no create and persists nothing.  The `GistService` variant has
no such fallback. -/
theorem C8_amended_stale_handle_fallback (data newId : String)
    (cr : Option String) :
    updateGistPopup HttpStatus.notFound (some newId) data =
      Except.ok { createdContent := some data, storedGistId := some newId } ∧
    updateGistPopup HttpStatus.ok cr data =
      Except.ok { createdContent := none, storedGistId := none } ∧
    (updateGistService HttpStatus.notFound [] "n"
        (fun _ => "g")).createdContent = none :=
  ⟨rfl, rfl, rfl⟩

/-! ## URL comparison (C9)

`MipaUtils.compareUrls` (src/src/js/utils.js lines 25-36) parses both
strings with `new URL(...)` and compares `origin + pathname`; if either
construction throws, it falls back to plain string equality.  We model
the WHATWG parse for the hierarchical `scheme://host[/path][?query][#hash]`
URLs the extension handles: the authority runs to the first `/`, `?` or
`#`; an empty path reads as `/` (so `https://x.com` and `https://x.com/`
share pathname `/`, while a non-root trailing slash is preserved); an
empty scheme or authority fails the parse, as does a string with no
`://`. -/

structure Url where
  scheme : String
  host : String
  path : String
  query : String
  hash : String
deriving DecidableEq, Repr

/-- `URL.prototype.origin` for the hierarchical URLs modelled here. -/
def origin (u : Url) : String :=
  u.scheme ++ "://" ++ u.host

/-- `URL.prototype.pathname`: the raw path, or `/` when empty. -/
def pathname (u : Url) : String :=
  if u.path = "" then "/" else u.path

/-- Split a character list at the first `://`, returning the scheme
characters before it and the characters after it. -/
def splitScheme : List Char → Option (List Char × List Char)
  | [] => none
  | ':' :: '/' :: '/' :: rest => some ([], rest)
  | c :: rest =>
    match splitScheme rest with
    | some r => some (c :: r.1, r.2)
    | none => none

/-- `new URL(s)` on a hierarchical URL string, `none` when the
constructor would throw. -/
def parseUrl (s : String) : Option Url :=
  match splitScheme s.data with
  | none => none
  | some r =>
    if r.1.isEmpty then none
    else
      let rest := r.2
      let hostChars := rest.takeWhile
        (fun c => decide (c ≠ '/' ∧ c ≠ '?' ∧ c ≠ '#'))
      let afterHost := rest.dropWhile
        (fun c => decide (c ≠ '/' ∧ c ≠ '?' ∧ c ≠ '#'))
      if hostChars.isEmpty then none
      else
        let pathChars := afterHost.takeWhile
          (fun c => decide (c ≠ '?' ∧ c ≠ '#'))
        let afterPath := afterHost.dropWhile
          (fun c => decide (c ≠ '?' ∧ c ≠ '#'))
        let queryChars := afterPath.takeWhile (fun c => decide (c ≠ '#'))
        let hashChars := afterPath.dropWhile (fun c => decide (c ≠ '#'))
        some { scheme := String.mk r.1
               host := String.mk hostChars
               path := String.mk pathChars
               query := String.mk queryChars
               hash := String.mk hashChars }

/-- `MipaUtils.compareUrls(url1, url2, strict)`; the arguments are JS
values that may be `undefined`. -/
def compareUrls (url1 url2 : Option String) (strict : Bool) : Bool :=
  if !truthyO url1 || !truthyO url2 then decide (url1 = url2)
  else if strict then decide (url1 = url2)
  else
    match parseUrl (url1.getD ""), parseUrl (url2.getD "") with
    | some u1, some u2 =>
      decide (origin u1 ++ pathname u1 = origin u2 ++ pathname u2)
    | _, _ => decide (url1 = url2)

structure UrlTab where
  url : Option String
deriving DecidableEq, Repr

structure UrlCol where
  tabs : Option (List UrlTab)
deriving DecidableEq, Repr

/-- `MipaUtils.isTabInCollection(collection, url)`: `false` when the
collection or its `tabs` is absent, else `.some(tab =>
compareUrls(tab.url, url))`. -/
def isTabInCollection (c : Option UrlCol) (url : Option String) : Bool :=
  match c with
  | none => false
  | some col =>
    match col.tabs with
    | none => false
    | some ts => ts.any (fun t => compareUrls t.url url false)

/-! ## C9 -/

/-- C9 counterexample: duplicate detection does NOT ignore a trailing
slash.  `https://x.com/a` and `https://x.com/a/` coincide on origin+path
up to the trailing slash, yet `compareUrls` — which compares
`origin + pathname` with the slash preserved — reports them different,
and a collection holding the first does not flag the second as a
duplicate. -/
theorem C9_counterexample :
    compareUrls (some "https://x.com/a") (some "https://x.com/a/") false =
      false ∧
    isTabInCollection (some ⟨some [⟨some "https://x.com/a"⟩]⟩)
      (some "https://x.com/a/") = false := by
  refine ⟨by decide, by decide⟩

/-- C9 amended: `compareUrls` in non-strict mode treats two parseable
URLs as equal exactly when their `origin + pathname` coincide — the
query string and hash fragment are ignored, but the trailing slash is
significant.  In particular a collection containing
`https://x.com/a?utm=1` does flag `https://x.com/a#frag` as a duplicate
under `isTabInCollection`. -/
theorem C9_amended_url_equivalence :
    (∀ (s₁ s₂ : String) (u₁ u₂ : Url),
      parseUrl s₁ = some u₁ → parseUrl s₂ = some u₂ →
      (compareUrls (some s₁) (some s₂) false = true ↔
        origin u₁ ++ pathname u₁ = origin u₂ ++ pathname u₂)) ∧
    isTabInCollection (some ⟨some [⟨some "https://x.com/a?utm=1"⟩]⟩)
      (some "https://x.com/a#frag") = true := by
  constructor
  · intro s₁ s₂ u₁ u₂ h₁ h₂
    have hempty : parseUrl "" = none := rfl
    have hs₁ : s₁ ≠ "" := by
      intro h
      rw [h, hempty] at h₁
      cases h₁
    have hs₂ : s₂ ≠ "" := by
      intro h
      rw [h, hempty] at h₂
      cases h₂
    have ht₁ : truthyO (some s₁) = true := by simpa [truthyO] using hs₁
    have ht₂ : truthyO (some s₂) = true := by simpa [truthyO] using hs₂
    simp [compareUrls, ht₁, ht₂, h₁, h₂]
  · decide

/-- Witness for C9's amended equivalence at two concrete URLs differing
only in query and hash. -/
theorem C9_witness :
    compareUrls (some "https://x.com/p?a=1") (some "https://x.com/p#z")
      false = true :=
  (C9_amended_url_equivalence.1 "https://x.com/p?a=1" "https://x.com/p#z"
    ⟨"https", "x.com", "/p", "?a=1", ""⟩ ⟨"https", "x.com", "/p", "", "#z"⟩
    rfl rfl).mpr (by decide)

end Mipa
